import Mathlib

/-!
Shallow embedding of the search core of `src/app.py` (AI Document Search Pro).

Strings are modelled as `List Char`.  The Python regex search
`re.finditer(re.escape(q), text)` (optionally wrapped in the word-boundary
lookarounds `(?<!\w) ... (?!\w)` and with `re.IGNORECASE` on pre-lowercased
inputs) is embedded as an explicit left-to-right scan that, after a match of
length `|q|` at position `i`, resumes at `i + |q|` (non-overlapping matches;
a zero-length match advances by one, as `finditer` does).
-/

namespace AppSearch

/-- ASCII word character, the `\w` class used by the boundary lookarounds:
letter, digit or underscore. -/
def isWordChar (c : Char) : Bool :=
  c.isAlpha || c.isDigit || c = '_'

/-- Character comparison used by the regex engine: exact equality when
`case_sensitive`, case-folded equality under `re.IGNORECASE` otherwise. -/
def charMatch (caseSensitive : Bool) (a b : Char) : Bool :=
  if caseSensitive then a == b else a.toLower == b.toLower

/-- Does `q` match at the head of `t`, character by character, under the
comparison `cmp`?  (False when `t` is shorter than `q`.) -/
def headMatch (cmp : Char → Char → Bool) : List Char → List Char → Bool
  | [], _ => true
  | _ :: _, [] => false
  | q :: qs, c :: cs => cmp q c && headMatch cmp qs cs

/-- True when position `i` of `t` is absent or holds a non-word character.
This is the test performed by the lookarounds `(?<!\w)` and `(?!\w)`. -/
def notWordAt (t : List Char) (i : Nat) : Bool :=
  match t[i]? with
  | some c => !isWordChar c
  | none => true

/-- Whole-word boundary check for a candidate match at `[i, i+len)` of `t`:
the character before the match (when the match does not start at position
0) and the character after it (when present) are not word characters. -/
def boundaryOk (t : List Char) (i len : Nat) : Bool :=
  (decide (i = 0) || notWordAt t (i - 1)) && notWordAt t (i + len)

/-- Does the compiled pattern match text `t` at position `i`?  Literal
characters of `q` under `charMatch cs`, plus the boundary lookarounds when
`whole_word` is set. -/
def matchAt (cs ww : Bool) (q t : List Char) (i : Nat) : Bool :=
  headMatch (charMatch cs) q (t.drop i) && (!ww || boundaryOk t i q.length)

/-- Fuel-indexed scan: the start positions produced by `re.finditer` from
position `i` on, leftmost match first, resuming after each match at its end
(one past it for a zero-length match, which cannot arise from a non-empty
query).  `fuel` only bounds the recursion; `t.length + 1 - i` steps always
suffice. -/
def scanAux (cs ww : Bool) (q t : List Char) : Nat → Nat → List Nat
  | 0, _ => []
  | fuel + 1, i =>
    if i + q.length ≤ t.length then
      if matchAt cs ww q t i then
        i :: scanAux cs ww q t fuel (i + max q.length 1)
      else
        scanAux cs ww q t fuel (i + 1)
    else
      []

/-- All the match start positions `re.finditer` reports on text `t`. -/
def scanFrom (cs ww : Bool) (q t : List Char) : List Nat :=
  scanAux cs ww q t (t.length + 1) 0

/-- Python's `text.split('\n')`: the maximal runs of non-newline characters,
with an empty segment between adjacent newlines and at each end; the result
is never empty (`"".split('\n') == [""]`). -/
def splitNL : List Char → List (List Char)
  | [] => [[]]
  | c :: rest =>
    match splitNL rest with
    | [] => [[c]]
    | l :: ls => if c = '\n' then [] :: l :: ls else (c :: l) :: ls

/-- One match record, as assembled in `perform_search_enhanced`. -/
structure MatchRecord where
  position : Nat
  line : Nat
  line_text : List Char
  exact_match : List Char
  context : List Char
  match_length : Nat
  deriving Repr, DecidableEq

/-- A stored document: raw text content plus its source kind. -/
structure Document where
  content : List Char
  dtype : String
  deriving Repr, DecidableEq

/-- Per-file search result: the document's matches and their count. -/
structure FileResult where
  filename : String
  file_type : String
  «matches» : List MatchRecord
  match_count : Nat
  deriving Repr, DecidableEq

/-- The two bold markers `**` wrapped around a match inside its context. -/
def marker : List Char := ['*', '*']

/-- Build the record for a match starting at `i` with length `qlen` in
`content`, following the body of the per-match loop: exact text sliced from
the original content, optional context window of radius `context_chars`
with the match wrapped in `**` markers, 1-based line number and full line
text. -/
def buildRecord (content : List Char) (qlen context_chars : Nat)
    (show_context : Bool) (i : Nat) : MatchRecord :=
  let exact := (content.drop i).take qlen
  let context_display :=
    if show_context then
      let context_start := i - context_chars
      let context_end := min content.length (i + qlen + context_chars)
      let context := (content.drop context_start).take (context_end - context_start)
      let mic := i - context_start
      context.take mic ++ marker ++ (context.drop mic).take exact.length ++
        marker ++ context.drop (mic + exact.length)
    else
      exact
  let line_num := (content.take i).count '\n' + 1
  let lines := splitNL content
  let line_text := if line_num ≤ lines.length then lines.getD (line_num - 1) [] else []
  { position := i
    line := line_num
    line_text := line_text
    exact_match := exact
    context := context_display
    match_length := exact.length }

/-- Search one document's text for the query: lowercase both sides unless
case-sensitive, scan for the (escaped, hence literal) pattern, and build a
record per match. -/
def searchDocument (search_query content : List Char)
    (case_sensitive whole_word show_context : Bool) (context_chars : Nat) :
    List MatchRecord :=
  let search_text := if case_sensitive then search_query else search_query.map Char.toLower
  let content_search := if case_sensitive then content else content.map Char.toLower
  (scanFrom case_sensitive whole_word search_text content_search).map
    (buildRecord content search_text.length context_chars show_context)

/-- Lookup in the corpus (`st.session_state.documents`), a mapping from
sanitized filename to document. -/
def lookupDoc (documents : List (String × Document)) (filename : String) :
    Option Document :=
  match documents.find? (fun p => p.1 == filename) with
  | some p => some p.2
  | none => none

/-- The error message returned for an over-long query. -/
def queryTooLongMsg : String := "Search query too long (max 1000 characters)"

/-- One iteration of the per-file loop of `perform_search_enhanced`:
documents absent from the corpus are skipped silently, documents with no
match contribute nothing, and a document with matches appends one
`FileResult` and adds its match count to the running total. -/
def searchStep (documents : List (String × Document)) (search_query : List Char)
    (case_sensitive whole_word show_context : Bool) (context_chars : Nat)
    (acc : List FileResult × Nat) (filename : String) : List FileResult × Nat :=
  match lookupDoc documents filename with
  | none => acc
  | some doc =>
    let file_matches := searchDocument search_query doc.content
      case_sensitive whole_word show_context context_chars
    if file_matches.isEmpty then acc
    else
      (acc.1 ++ [{ filename := filename, file_type := doc.dtype,
                   «matches» := file_matches,
                   match_count := file_matches.length }],
       acc.2 + file_matches.length)

/-- `perform_search_enhanced`: reject queries longer than 1000 characters
before scanning anything; otherwise scan each requested document that is
present in the corpus, keep the files with at least one match, and return
the per-file results, the total match count and an empty error string. -/
def perform_search_enhanced (documents : List (String × Document))
    (search_query : List Char) (search_in : List String)
    (case_sensitive whole_word show_context : Bool) (context_chars : Nat) :
    List FileResult × Nat × String :=
  if search_query.length > 1000 then
    ([], 0, queryTooLongMsg)
  else
    let res := search_in.foldl
      (searchStep documents search_query case_sensitive whole_word
        show_context context_chars) ([], 0)
    (res.1, res.2, "")

/-- Characters `sanitize_filename` keeps: the regex class `[\w\-\.]`. -/
def keepChar (c : Char) : Bool :=
  isWordChar c || c = '-' || c = '.'

/-- `os.path.basename`: the part of the path after the last `/`. -/
def basenameOf (s : List Char) : List Char :=
  s.foldl (fun acc c => if c = '/' then [] else acc ++ [c]) []

/-- `sanitize_filename`: strip the directory part, replace every character
outside `[\w\-\.]` by an underscore, and cap the length at 255. -/
def sanitize_filename (s : List Char) : List Char :=
  ((basenameOf s).map (fun c => if keepChar c then c else '_')).take 255

/-- Modelled from the spec, for comparison with the engine: the reference
scan of section 8 walks left to right, reports position `i` whenever the
slice of `D` of length `|Q|` starting at `i` equals `Q` literally, and
after a match ending at `e = i + |Q|` resumes at `e` (for the non-empty
queries the spec quantifies over, `max |Q| 1 = |Q|`). -/
def refScanAux (Q D : List Char) : Nat → Nat → List Nat
  | 0, _ => []
  | fuel + 1, i =>
    if i + Q.length ≤ D.length then
      if (D.drop i).take Q.length = Q then
        i :: refScanAux Q D fuel (i + max Q.length 1)
      else
        refScanAux Q D fuel (i + 1)
    else
      []

/-- Modelled from the spec: all positions of non-overlapping literal
occurrences of `Q` in `D`, found by the left-to-right reference scan. -/
def refScan (Q D : List Char) : List Nat :=
  refScanAux Q D (D.length + 1) 0

/-- A `FileResult` that originates from its corpus entry: the filename
resolves to a document whose scan produced the (non-empty) match list. -/
def fromCorpus (documents : List (String × Document)) (q : List Char)
    (cs ww sc : Bool) (R : Nat) (fr : FileResult) : Prop :=
  ∃ doc, lookupDoc documents fr.filename = some doc ∧
    fr.«matches» = searchDocument q doc.content cs ww sc R ∧
    fr.match_count = fr.«matches».length ∧ fr.«matches» ≠ []

/-- A one-document corpus used to exercise the search theorems on concrete
input. -/
def sampleCorpus : List (String × Document) :=
  [("d.txt", ⟨"hello world".toList, "txt"⟩)]

/-- The single record the sample search for `"o w"` with context radius 3
produces. -/
def sampleRecord : MatchRecord :=
  ⟨4, 1, "hello world".toList, "o w".toList, "ell**o w**orl".toList, 3⟩

/-- The per-file result holding `sampleRecord`. -/
def sampleFileResult : FileResult := ⟨"d.txt", "txt", [sampleRecord], 1⟩

/-- The record of the same search without a context window. -/
def sampleRecordPlain : MatchRecord :=
  ⟨4, 1, "hello world".toList, "o w".toList, "o w".toList, 3⟩

/-- The per-file result holding `sampleRecordPlain`. -/
def sampleFileResultPlain : FileResult := ⟨"d.txt", "txt", [sampleRecordPlain], 1⟩

/-- A one-document corpus with mixed-case text. -/
def caseCorpus : List (String × Document) :=
  [("d.txt", ⟨"Hello HELLO hello".toList, "txt"⟩)]

/-- First record of the case-insensitive sample search for `"hello"`. -/
def caseRecord : MatchRecord :=
  ⟨0, 1, "Hello HELLO hello".toList, "Hello".toList, "Hello".toList, 5⟩

/-- The per-file result of the case-insensitive sample search. -/
def caseFileResult : FileResult :=
  ⟨"d.txt", "txt",
    [caseRecord,
     ⟨6, 1, "Hello HELLO hello".toList, "HELLO".toList, "HELLO".toList, 5⟩,
     ⟨12, 1, "Hello HELLO hello".toList, "hello".toList, "hello".toList, 5⟩], 3⟩

/-- A one-document corpus with a three-line text. -/
def lineCorpus : List (String × Document) :=
  [("d.txt", ⟨"a\nb\nmatch\n".toList, "txt"⟩)]

/-- The record of the sample search for `"match"` in `lineCorpus`. -/
def lineRecord : MatchRecord :=
  ⟨4, 3, "match".toList, "match".toList, "match".toList, 5⟩

/-- The per-file result holding `lineRecord`. -/
def lineFileResult : FileResult := ⟨"d.txt", "txt", [lineRecord], 1⟩

/-! ### Character-level facts -/

theorem isWordChar_toLower (c : Char) : isWordChar c.toLower = isWordChar c := by
  show isWordChar
      (if c.toNat ≥ 65 ∧ c.toNat ≤ 90 then Char.ofNat (c.toNat + 32) else c) =
    isWordChar c
  split
  · rename_i h
    obtain ⟨h1, h2⟩ := h
    have hc : Char.ofNat c.toNat = c := Char.ofNat_toNat c
    set n := c.toNat with hn
    interval_cases n <;> (rw [← hc]; decide)
  · rfl

theorem notWordAt_map_toLower (t : List Char) (i : Nat) :
    notWordAt (t.map Char.toLower) i = notWordAt t i := by
  unfold notWordAt
  rw [List.getElem?_map]
  cases t[i]? with
  | none => rfl
  | some c => simp [isWordChar_toLower]

theorem boundaryOk_map_toLower (t : List Char) (i len : Nat) :
    boundaryOk (t.map Char.toLower) i len = boundaryOk t i len := by
  unfold boundaryOk
  rw [notWordAt_map_toLower, notWordAt_map_toLower]

theorem charMatch_sensitive_iff (a b : Char) : charMatch true a b = true ↔ a = b := by
  simp [charMatch]

theorem headMatch_sensitive_iff (q s : List Char) :
    headMatch (charMatch true) q s = true ↔ s.take q.length = q := by
  induction q generalizing s with
  | nil => simp [headMatch]
  | cons a qs ih =>
    cases s with
    | nil => simp [headMatch]
    | cons c cs =>
      simp only [headMatch, Bool.and_eq_true, charMatch_sensitive_iff,
        List.length_cons, List.take_succ_cons, List.cons.injEq, ih]
      exact ⟨fun ⟨h1, h2⟩ => ⟨h1.symm, h2⟩, fun ⟨h1, h2⟩ => ⟨h1.symm, h2⟩⟩

/-! ### Facts about the finditer scan -/

theorem scanAux_mem_ge {cs ww : Bool} {q t : List Char} :
    ∀ {fuel i p : Nat}, p ∈ scanAux cs ww q t fuel i → i ≤ p := by
  intro fuel
  induction fuel with
  | zero => intro i p h; simp [scanAux] at h
  | succ n ih =>
    intro i p h
    have hmax : 1 ≤ max q.length 1 := Nat.le_max_right q.length 1
    simp only [scanAux] at h
    split at h
    · split at h
      · rcases List.mem_cons.mp h with rfl | h'
        · exact Nat.le_refl p
        · have := ih h'; omega
      · have := ih h; omega
    · simp at h

theorem scanAux_mem_spec {cs ww : Bool} {q t : List Char} :
    ∀ {fuel i p : Nat}, p ∈ scanAux cs ww q t fuel i →
      matchAt cs ww q t p = true ∧ p + q.length ≤ t.length := by
  intro fuel
  induction fuel with
  | zero => intro i p h; simp [scanAux] at h
  | succ n ih =>
    intro i p h
    simp only [scanAux] at h
    split at h
    · rename_i hguard
      split at h
      · rename_i hm
        rcases List.mem_cons.mp h with rfl | h'
        · exact ⟨hm, hguard⟩
        · exact ih h'
      · exact ih h
    · simp at h

theorem scanAux_pairwise {cs ww : Bool} {q t : List Char} :
    ∀ {fuel i : Nat},
      (scanAux cs ww q t fuel i).Pairwise (fun a b => a + max q.length 1 ≤ b) := by
  intro fuel
  induction fuel with
  | zero => intro i; simp [scanAux]
  | succ n ih =>
    intro i
    simp only [scanAux]
    split
    · split
      · exact List.Pairwise.cons (fun b hb => scanAux_mem_ge hb) ih
      · exact ih
    · simp

theorem scanAux_complete {cs ww : Bool} {q t : List Char} :
    ∀ {fuel i o : Nat}, t.length + 1 ≤ i + fuel → i ≤ o →
      o + q.length ≤ t.length → matchAt cs ww q t o = true →
      o ∈ scanAux cs ww q t fuel i ∨
        ∃ p ∈ scanAux cs ww q t fuel i, p < o ∧ o < p + max q.length 1 := by
  intro fuel
  induction fuel with
  | zero => intro i o hf hio ho hm; exfalso; omega
  | succ n ih =>
    intro i o hf hio ho hm
    have hmax : 1 ≤ max q.length 1 := Nat.le_max_right q.length 1
    have hguard : i + q.length ≤ t.length := by omega
    simp only [scanAux, if_pos hguard]
    by_cases hmi : matchAt cs ww q t i = true
    · rw [if_pos hmi]
      rcases Nat.lt_or_ge o (i + max q.length 1) with hlt | hge
      · rcases Nat.eq_or_lt_of_le hio with rfl | hio'
        · exact Or.inl (List.mem_cons_self _ _)
        · exact Or.inr ⟨i, List.mem_cons_self _ _, hio', hlt⟩
      · rcases ih (by omega) hge ho hm with h | ⟨p, hp, h1, h2⟩
        · exact Or.inl (List.mem_cons_of_mem _ h)
        · exact Or.inr ⟨p, List.mem_cons_of_mem _ hp, h1, h2⟩
    · rw [if_neg hmi]
      have hne : o ≠ i := by rintro rfl; exact hmi hm
      exact ih (by omega) (by omega) ho hm

theorem scanFrom_mem_spec {cs ww : Bool} {q t : List Char} {p : Nat}
    (h : p ∈ scanFrom cs ww q t) :
    matchAt cs ww q t p = true ∧ p + q.length ≤ t.length :=
  scanAux_mem_spec h

theorem scanFrom_pairwise (cs ww : Bool) (q t : List Char) :
    (scanFrom cs ww q t).Pairwise (fun a b => a + max q.length 1 ≤ b) :=
  scanAux_pairwise

theorem scanFrom_sorted (cs ww : Bool) (q t : List Char) :
    (scanFrom cs ww q t).Pairwise (· < ·) := by
  have hmax : 1 ≤ max q.length 1 := Nat.le_max_right q.length 1
  exact (scanFrom_pairwise cs ww q t).imp (fun h => by omega)

theorem scanFrom_complete {cs ww : Bool} {q t : List Char} {o : Nat}
    (ho : o + q.length ≤ t.length) (hm : matchAt cs ww q t o = true) :
    o ∈ scanFrom cs ww q t ∨
      ∃ p ∈ scanFrom cs ww q t, p < o ∧ o < p + max q.length 1 :=
  scanAux_complete (by omega) (Nat.zero_le o) ho hm

theorem matchAt_sensitive (q t : List Char) (i : Nat) :
    matchAt true false q t i = true ↔ (t.drop i).take q.length = q := by
  simp [matchAt, headMatch_sensitive_iff]

theorem scanAux_sensitive_eq_refScanAux (q t : List Char) :
    ∀ fuel i, scanAux true false q t fuel i = refScanAux q t fuel i := by
  intro fuel
  induction fuel with
  | zero => intro i; rfl
  | succ n ih =>
    intro i
    simp only [scanAux, refScanAux]
    split
    · by_cases hq : (t.drop i).take q.length = q
      · rw [if_pos ((matchAt_sensitive q t i).mpr hq), if_pos hq, ih]
      · rw [if_neg (fun hc => hq ((matchAt_sensitive q t i).mp hc)), if_neg hq, ih]
    · rfl

theorem scanFrom_sensitive_eq_refScan (q t : List Char) :
    scanFrom true false q t = refScan q t :=
  scanAux_sensitive_eq_refScanAux q t (t.length + 1) 0

/-! ### Facts about line splitting -/

theorem splitNL_ne_nil (t : List Char) : splitNL t ≠ [] := by
  cases t with
  | nil => simp [splitNL]
  | cons c rest =>
    cases h : splitNL rest with
    | nil => simp [splitNL, h]
    | cons l ls =>
      simp only [splitNL, h]
      split <;> simp

theorem length_splitNL (t : List Char) : (splitNL t).length = t.count '\n' + 1 := by
  induction t with
  | nil => rfl
  | cons c rest ih =>
    cases h : splitNL rest with
    | nil => exact absurd h (splitNL_ne_nil rest)
    | cons l ls =>
      rw [h] at ih
      simp only [List.length_cons] at ih
      by_cases hc : c = '\n'
      · simp only [splitNL, h, if_pos hc, List.length_cons, hc, List.count_cons_self,
          if_true, ite_true]
        omega
      · simp only [splitNL, h, if_neg hc, List.length_cons,
          List.count_cons_of_ne (fun he => hc he.symm)]
        omega

theorem count_take_newline_le (t : List Char) (s : Nat) :
    (t.take s).count '\n' ≤ t.count '\n' :=
  (List.take_sublist s t).count_le '\n'

theorem line_index_in_bounds (t : List Char) (s : Nat) :
    (t.take s).count '\n' + 1 ≤ (splitNL t).length := by
  rw [length_splitNL]
  have := count_take_newline_le t s
  omega

/-! ### Facts about `buildRecord` -/

theorem buildRecord_position (T : List Char) (qlen R : Nat) (sc : Bool) (i : Nat) :
    (buildRecord T qlen R sc i).position = i := rfl

theorem buildRecord_exact (T : List Char) (qlen R : Nat) (sc : Bool) (i : Nat) :
    (buildRecord T qlen R sc i).exact_match = (T.drop i).take qlen := rfl

theorem buildRecord_match_length (T : List Char) (qlen R : Nat) (sc : Bool) (i : Nat) :
    (buildRecord T qlen R sc i).match_length = ((T.drop i).take qlen).length := rfl

theorem buildRecord_line (T : List Char) (qlen R : Nat) (sc : Bool) (i : Nat) :
    (buildRecord T qlen R sc i).line = (T.take i).count '\n' + 1 := rfl

theorem buildRecord_line_text (T : List Char) (qlen R : Nat) (sc : Bool) (i : Nat) :
    (buildRecord T qlen R sc i).line_text =
      if (T.take i).count '\n' + 1 ≤ (splitNL T).length
      then (splitNL T).getD ((T.take i).count '\n') [] else [] := rfl

theorem buildRecord_line_text_eq (T : List Char) (qlen R : Nat) (sc : Bool) (i : Nat) :
    (buildRecord T qlen R sc i).line_text =
      (splitNL T).getD ((T.take i).count '\n') [] := by
  rw [buildRecord_line_text, if_pos (line_index_in_bounds T i)]

theorem buildRecord_context_false (T : List Char) (qlen R : Nat) (i : Nat) :
    (buildRecord T qlen R false i).context = (T.drop i).take qlen := rfl

theorem buildRecord_context_true (T : List Char) (qlen R : Nat) (i : Nat) :
    (buildRecord T qlen R true i).context =
      ((T.drop (i - R)).take (min T.length (i + qlen + R) - (i - R))).take (i - (i - R)) ++
        marker ++
        (((T.drop (i - R)).take (min T.length (i + qlen + R) - (i - R))).drop (i - (i - R))).take
          ((T.drop i).take qlen).length ++
        marker ++
        ((T.drop (i - R)).take (min T.length (i + qlen + R) - (i - R))).drop
          ((i - (i - R)) + ((T.drop i).take qlen).length) := rfl

theorem window_middle (T : List Char) (qlen R i : Nat) (hin : i + qlen ≤ T.length) :
    (((T.drop (i - R)).take (min T.length (i + qlen + R) - (i - R))).drop (i - (i - R))).take qlen
      = (T.drop i).take qlen := by
  rw [List.drop_take, List.drop_drop]
  have h1 : (i - R) + (i - (i - R)) = i := by omega
  rw [h1, List.take_take]
  have h2 : min qlen (min T.length (i + qlen + R) - (i - R) - (i - (i - R))) = qlen := by
    omega
  rw [h2]

theorem window_length_le (T : List Char) (qlen R i : Nat) :
    ((T.drop (i - R)).take (min T.length (i + qlen + R) - (i - R))).length ≤ qlen + 2 * R := by
  simp only [List.length_take, List.length_drop]
  omega

/-! ### Facts about `searchDocument` -/

theorem searchDocument_def (Q T : List Char) (cs ww sc : Bool) (R : Nat) :
    searchDocument Q T cs ww sc R =
      (scanFrom cs ww (if cs then Q else Q.map Char.toLower)
        (if cs then T else T.map Char.toLower)).map
        (buildRecord T (if cs then Q else Q.map Char.toLower).length R sc) := rfl

theorem searchDocument_mem {Q T : List Char} {cs ww sc : Bool} {R : Nat}
    {r : MatchRecord} (h : r ∈ searchDocument Q T cs ww sc R) :
    ∃ p ∈ scanFrom cs ww (if cs then Q else Q.map Char.toLower)
        (if cs then T else T.map Char.toLower),
      r = buildRecord T (if cs then Q else Q.map Char.toLower).length R sc p := by
  rw [searchDocument_def] at h
  rcases List.mem_map.mp h with ⟨p, hp, rfl⟩
  exact ⟨p, hp, rfl⟩

theorem searchDocument_mem_range {Q T : List Char} {cs ww sc : Bool} {R : Nat}
    {r : MatchRecord} (h : r ∈ searchDocument Q T cs ww sc R) :
    r.position + Q.length ≤ T.length ∧ r.match_length = Q.length ∧
      r.exact_match = (T.drop r.position).take Q.length := by
  rcases searchDocument_mem h with ⟨p, hp, rfl⟩
  have hspec := (scanFrom_mem_spec hp).2
  have hq : (if cs then Q else Q.map Char.toLower).length = Q.length := by
    cases cs <;> simp
  have hrange : p + Q.length ≤ T.length := by
    cases cs <;> simpa using hspec
  refine ⟨by simpa [buildRecord_position] using hrange, ?_, ?_⟩
  · rw [buildRecord_match_length, hq]
    simp only [List.length_take, List.length_drop]
    omega
  · rw [buildRecord_exact, buildRecord_position, hq]

theorem searchDocument_map_position (Q T : List Char) (cs ww sc : Bool) (R : Nat) :
    (searchDocument Q T cs ww sc R).map MatchRecord.position =
      scanFrom cs ww (if cs then Q else Q.map Char.toLower)
        (if cs then T else T.map Char.toLower) := by
  rw [searchDocument_def, List.map_map]
  have : MatchRecord.position ∘
      buildRecord T (if cs then Q else Q.map Char.toLower).length R sc = id := by
    funext p
    simp [Function.comp, buildRecord_position]
  rw [this, List.map_id]

/-! ### Facts about the orchestrator fold -/

theorem searchStep_none {documents : List (String × Document)} {q : List Char}
    {cs ww sc : Bool} {R : Nat} {acc : List FileResult × Nat} {name : String}
    (h : lookupDoc documents name = none) :
    searchStep documents q cs ww sc R acc name = acc := by
  unfold searchStep
  rw [h]

theorem searchStep_mem {documents : List (String × Document)} {q : List Char}
    {cs ww sc : Bool} {R : Nat} {acc : List FileResult × Nat} {name : String}
    {fr : FileResult} (h : fr ∈ (searchStep documents q cs ww sc R acc name).1) :
    fr ∈ acc.1 ∨ fromCorpus documents q cs ww sc R fr := by
  unfold searchStep at h
  cases hl : lookupDoc documents name with
  | none => rw [hl] at h; exact Or.inl h
  | some doc =>
    rw [hl] at h
    simp only at h
    split at h
    · exact Or.inl h
    · rename_i hne
      rcases List.mem_append.mp h with h' | h'
      · exact Or.inl h'
      · rw [List.mem_singleton.mp h']
        refine Or.inr ⟨doc, hl, rfl, rfl, ?_⟩
        simpa [List.isEmpty_iff] using hne

theorem foldl_searchStep_mem {documents : List (String × Document)} {q : List Char}
    {cs ww sc : Bool} {R : Nat} :
    ∀ (l : List String) (acc : List FileResult × Nat) (fr : FileResult),
      fr ∈ (l.foldl (searchStep documents q cs ww sc R) acc).1 →
      fr ∈ acc.1 ∨ fromCorpus documents q cs ww sc R fr := by
  intro l
  induction l with
  | nil => intro acc fr h; exact Or.inl h
  | cons name rest ih =>
    intro acc fr h
    rcases ih _ fr h with h' | h'
    · exact searchStep_mem h'
    · exact Or.inr h'

theorem perform_search_mem {documents : List (String × Document)} {q : List Char}
    {tgt : List String} {cs ww sc : Bool} {R : Nat} {fr : FileResult}
    (h : fr ∈ (perform_search_enhanced documents q tgt cs ww sc R).1) :
    fromCorpus documents q cs ww sc R fr := by
  unfold perform_search_enhanced at h
  split at h
  · simp at h
  · rcases foldl_searchStep_mem tgt ([], 0) fr h with h' | h'
    · simp at h'
    · exact h'

theorem lookupDoc_nil (name : String) : lookupDoc [] name = none := rfl

theorem foldl_searchStep_nil_corpus {q : List Char} {cs ww sc : Bool} {R : Nat} :
    ∀ (l : List String) (acc : List FileResult × Nat),
      l.foldl (searchStep [] q cs ww sc R) acc = acc := by
  intro l
  induction l with
  | nil => intro acc; rfl
  | cons name rest ih =>
    intro acc
    rw [List.foldl_cons, searchStep_none (lookupDoc_nil name), ih]

/-! ### Facts about `sanitize_filename` -/

theorem foldl_basename_no_slash :
    ∀ (l acc : List Char), (∀ c ∈ l, c ≠ '/') →
      l.foldl (fun acc c => if c = '/' then [] else acc ++ [c]) acc = acc ++ l := by
  intro l
  induction l with
  | nil => intro acc _; simp
  | cons c rest ih =>
    intro acc h
    rw [List.foldl_cons, if_neg (h c (List.mem_cons_self c rest)),
      ih (acc ++ [c]) (fun d hd => h d (List.mem_cons_of_mem c hd))]
    simp

theorem basenameOf_no_slash (l : List Char) (h : ∀ c ∈ l, c ≠ '/') :
    basenameOf l = l := by
  unfold basenameOf
  simpa using foldl_basename_no_slash l [] h

theorem map_keep_id (l : List Char) (h : ∀ c ∈ l, keepChar c = true) :
    l.map (fun c => if keepChar c then c else '_') = l := by
  induction l with
  | nil => rfl
  | cons c rest ih =>
    rw [List.map_cons, if_pos (h c (List.mem_cons_self c rest)),
      ih (fun d hd => h d (List.mem_cons_of_mem c hd))]

theorem sanitize_filename_mem {s : List Char} {c : Char}
    (h : c ∈ sanitize_filename s) : keepChar c = true := by
  unfold sanitize_filename at h
  have h2 := List.mem_map.mp (List.take_subset 255 _ h)
  rcases h2 with ⟨d, _, rfl⟩
  by_cases hd : keepChar d = true
  · rw [if_pos hd]; exact hd
  · rw [if_neg hd]; decide

/-! ## The claims -/

/-- C6: a query longer than 1000 characters makes the search fail before
any document is scanned — empty result list, zero total, non-empty error —
regardless of the corpus and targets; a query of exactly 1000 characters is
not rejected by this check (the error component stays empty). -/
theorem C6_query_too_long (documents : List (String × Document)) (Q : List Char)
    (tgt : List String) (cs ww sc : Bool) (R : Nat) :
    (Q.length > 1000 →
      perform_search_enhanced documents Q tgt cs ww sc R = ([], 0, queryTooLongMsg) ∧
      queryTooLongMsg ≠ "") ∧
    (Q.length = 1000 →
      (perform_search_enhanced documents Q tgt cs ww sc R).2.2 = "") := by
  constructor
  · intro h
    refine ⟨?_, by decide⟩
    unfold perform_search_enhanced
    rw [if_pos h]
  · intro h
    unfold perform_search_enhanced
    rw [if_neg (by omega)]

/-- C6 witness: a 1001-character query is rejected with the fixed error
tuple; a 1000-character query leaves the error empty. -/
theorem C6_query_too_long_witness :
    (perform_search_enhanced [] (List.replicate 1001 'a') [] true true true 5 =
      ([], 0, queryTooLongMsg)) ∧
    (perform_search_enhanced [] (List.replicate 1000 'a') [] true true true 5).2.2 = "" :=
  ⟨((C6_query_too_long [] (List.replicate 1001 'a') [] true true true 5).1
      (by rw [List.length_replicate]; omega)).1,
   (C6_query_too_long [] (List.replicate 1000 'a') [] true true true 5).2
      (by rw [List.length_replicate])⟩

/-- C7: target identifiers absent from the corpus are silently skipped,
documents with zero matches never appear in the result list, and an empty
corpus yields an empty result list, zero total and no error for any query
within the length limit. -/
theorem C7_skip_and_empty :
    (∀ (documents : List (String × Document)) (Q : List Char) (name : String)
        (rest : List String) (cs ww sc : Bool) (R : Nat),
      lookupDoc documents name = none →
      perform_search_enhanced documents Q (name :: rest) cs ww sc R =
        perform_search_enhanced documents Q rest cs ww sc R) ∧
    (∀ (documents : List (String × Document)) (Q : List Char) (tgt : List String)
        (cs ww sc : Bool) (R : Nat) (fr : FileResult),
      fr ∈ (perform_search_enhanced documents Q tgt cs ww sc R).1 →
      0 < fr.match_count) ∧
    (∀ (Q : List Char) (tgt : List String) (cs ww sc : Bool) (R : Nat),
      Q.length ≤ 1000 →
      perform_search_enhanced [] Q tgt cs ww sc R = ([], 0, "")) := by
  refine ⟨?_, ?_, ?_⟩
  · intro documents Q name rest cs ww sc R h
    unfold perform_search_enhanced
    split
    · rfl
    · rw [List.foldl_cons, searchStep_none h]
  · intro documents Q tgt cs ww sc R fr h
    rcases perform_search_mem h with ⟨doc, _, _, hc, hne⟩
    rw [hc]
    exact List.length_pos.mpr hne
  · intro Q tgt cs ww sc R h
    unfold perform_search_enhanced
    rw [if_neg (by omega), foldl_searchStep_nil_corpus]

/-- C7 witness: searching an absent identifier over an empty corpus returns
zero results, zero matches and no error, and prepending another absent
identifier changes nothing. -/
theorem C7_skip_and_empty_witness :
    (perform_search_enhanced [] ['a'] ["gone.txt"] true false true 7 =
      perform_search_enhanced [] ['a'] [] true false true 7) ∧
    perform_search_enhanced [] ['a'] ["x.txt"] false true false 3 = ([], 0, "") :=
  ⟨C7_skip_and_empty.1 [] ['a'] "gone.txt" [] true false true 7 rfl,
   C7_skip_and_empty.2.2 ['a'] ["x.txt"] false true false 3 (by decide)⟩

/-- C8: whenever the search reports a non-empty error string, the result
list is empty and the total match count is zero — no partial per-file
results accompany an error. -/
theorem C8_error_no_partial (documents : List (String × Document)) (Q : List Char)
    (tgt : List String) (cs ww sc : Bool) (R : Nat)
    (h : (perform_search_enhanced documents Q tgt cs ww sc R).2.2 ≠ "") :
    (perform_search_enhanced documents Q tgt cs ww sc R).1 = [] ∧
    (perform_search_enhanced documents Q tgt cs ww sc R).2.1 = 0 := by
  by_cases hlen : Q.length > 1000
  · unfold perform_search_enhanced
    rw [if_pos hlen]
    exact ⟨rfl, rfl⟩
  · exfalso
    apply h
    unfold perform_search_enhanced
    rw [if_neg hlen]

/-- C8 witness: an over-long query over a non-empty corpus with matches in
range produces a non-empty error, and then no results and a zero total. -/
theorem C8_error_no_partial_witness :
    (perform_search_enhanced [("a.txt", ⟨['x'], "txt"⟩)] (List.replicate 1001 'x')
        ["a.txt"] true false false 5).2.2 ≠ "" ∧
    (perform_search_enhanced [("a.txt", ⟨['x'], "txt"⟩)] (List.replicate 1001 'x')
        ["a.txt"] true false false 5).1 = [] ∧
    (perform_search_enhanced [("a.txt", ⟨['x'], "txt"⟩)] (List.replicate 1001 'x')
        ["a.txt"] true false false 5).2.1 = 0 := by
  have herr : (perform_search_enhanced [("a.txt", ⟨['x'], "txt"⟩)]
      (List.replicate 1001 'x') ["a.txt"] true false false 5).2.2 ≠ "" := by
    unfold perform_search_enhanced
    rw [if_pos (by rw [List.length_replicate]; omega)]
    decide
  exact ⟨herr,
    C8_error_no_partial [("a.txt", ⟨['x'], "txt"⟩)] (List.replicate 1001 'x')
      ["a.txt"] true false false 5 herr⟩

/-- C9: `sanitize_filename` always returns at most 255 characters, all of
them word characters, dashes or dots (in particular no `/` path
separators), and it is idempotent. -/
theorem C9_sanitize_filename (s : List Char) :
    (sanitize_filename s).length ≤ 255 ∧
    (∀ c ∈ sanitize_filename s, keepChar c = true ∧ c ≠ '/') ∧
    sanitize_filename (sanitize_filename s) = sanitize_filename s := by
  refine ⟨?_, ?_, ?_⟩
  · unfold sanitize_filename
    simp [List.length_take]
  · intro c hc
    have hk := sanitize_filename_mem hc
    refine ⟨hk, ?_⟩
    rintro rfl
    exact absurd hk (by decide)
  · have hkeep : ∀ c ∈ sanitize_filename s, keepChar c = true :=
      fun c hc => sanitize_filename_mem hc
    have hslash : ∀ c ∈ sanitize_filename s, c ≠ '/' := by
      intro c hc
      rintro rfl
      exact absurd (hkeep _ hc) (by decide)
    have hlen : (sanitize_filename s).length ≤ 255 := by
      unfold sanitize_filename
      simp [List.length_take]
    set u := sanitize_filename s with hu
    show sanitize_filename u = u
    unfold sanitize_filename
    rw [basenameOf_no_slash u hslash, map_keep_id u hkeep,
      List.take_of_length_le hlen]

/-- C10: for any start offset `s ≤ |T|`, the computed line number (newline
count in `T[0:s]` plus one) never exceeds the number of segments of `T`
split on newlines, so the `lines[line_num-1]` lookup is in bounds and the
record's line text is that segment unconditionally — the empty-string
fallback branch is unreachable. -/
theorem C10_line_lookup_in_bounds (T : List Char) (s : Nat) (h : s ≤ T.length) :
    (T.take s).count '\n' + 1 ≤ (splitNL T).length ∧
    (∀ (qlen R : Nat) (sc : Bool),
      (buildRecord T qlen R sc s).line_text =
        (splitNL T).getD ((buildRecord T qlen R sc s).line - 1) []) := by
  refine ⟨line_index_in_bounds T s, ?_⟩
  intro qlen R sc
  rw [buildRecord_line_text_eq, buildRecord_line, Nat.add_sub_cancel]

/-- C10 witness: a match offset on the final, newline-terminated line of a
small document indexes its line safely. -/
theorem C10_line_lookup_in_bounds_witness :
    (4 ≤ ("a\nb\nmatch\n".toList).length) ∧
    (("a\nb\nmatch\n".toList.take 4).count '\n' + 1 ≤
      (splitNL "a\nb\nmatch\n".toList).length) :=
  ⟨by decide, (C10_line_lookup_in_bounds "a\nb\nmatch\n".toList 4 (by decide)).1⟩

/-- C1: for a non-empty query with `case_sensitive = true` and
`whole_word = false`, the engine reports exactly the non-overlapping
literal occurrences found by the spec's left-to-right reference scan, in
strictly ascending start-offset order, with equal match count; every
reported position really carries the query as a literal substring, and
regex metacharacters in the query have no pattern meaning (a dot does not
match an arbitrary character). -/
theorem C1_literal_scan (D Q : List Char) (hQ : Q ≠ []) (sc : Bool) (R : Nat) :
    ((searchDocument Q D true false sc R).map MatchRecord.position = refScan Q D) ∧
    ((searchDocument Q D true false sc R).length = (refScan Q D).length) ∧
    ((searchDocument Q D true false sc R).map MatchRecord.position).Pairwise (· < ·) ∧
    (∀ r ∈ searchDocument Q D true false sc R,
      (D.drop r.position).take Q.length = Q ∧ r.position + Q.length ≤ D.length) ∧
    scanFrom true false ['a', '.', 'c'] ['a', 'b', 'c'] = [] := by
  have hmap : (searchDocument Q D true false sc R).map MatchRecord.position =
      scanFrom true false Q D := by
    simpa using searchDocument_map_position Q D true false sc R
  refine ⟨?_, ?_, ?_, ?_, by decide⟩
  · rw [hmap, scanFrom_sensitive_eq_refScan]
  · have hlen := congrArg List.length hmap
    rw [List.length_map] at hlen
    rw [hlen, scanFrom_sensitive_eq_refScan]
  · rw [hmap]
    exact scanFrom_sorted true false Q D
  · intro r hr
    rcases searchDocument_mem hr with ⟨p, hp, rfl⟩
    have hp' : p ∈ scanFrom true false Q D := by simpa using hp
    have hocc := (matchAt_sensitive Q D p).mp (scanFrom_mem_spec hp').1
    exact ⟨by rw [buildRecord_position]; exact hocc,
      by rw [buildRecord_position]; exact (scanFrom_mem_spec hp').2⟩

/-- C1 witness: the query is non-empty and the engine's positions coincide
with the reference scan on a text with adjacent occurrences. -/
theorem C1_literal_scan_witness :
    ("ab".toList ≠ []) ∧
    (searchDocument "ab".toList "cabab".toList true false false 3).map
        MatchRecord.position = refScan "ab".toList "cabab".toList :=
  ⟨by decide,
   (C1_literal_scan "cabab".toList "ab".toList (by decide) false 3).1⟩

/-- C2: under case-insensitive search every record's offset and length
index into the original, non-lowercased text, and `exact_match` is the
slice of the original text there, preserving its casing; the search of
"Hello HELLO hello" for "hello" yields exactly the three casings. -/
theorem C2_case_insensitive_offsets :
    (∀ (documents : List (String × Document)) (Q : List Char) (tgt : List String)
        (ww sc : Bool) (R : Nat) (fr : FileResult) (r : MatchRecord),
      fr ∈ (perform_search_enhanced documents Q tgt false ww sc R).1 →
      r ∈ fr.«matches» →
      ∃ doc, lookupDoc documents fr.filename = some doc ∧
        r.position + r.match_length ≤ doc.content.length ∧
        r.match_length = Q.length ∧
        r.exact_match = (doc.content.drop r.position).take r.match_length) ∧
    ((perform_search_enhanced caseCorpus "hello".toList ["d.txt"]
        false false false 50).1.map
      (fun fr => fr.«matches».map (fun r => r.exact_match))) =
      [["Hello".toList, "HELLO".toList, "hello".toList]] := by
  constructor
  · intro documents Q tgt ww sc R fr r hfr hr
    rcases perform_search_mem hfr with ⟨doc, hlk, hm, _, _⟩
    rw [hm] at hr
    have hran := searchDocument_mem_range hr
    refine ⟨doc, hlk, ?_, hran.2.1, ?_⟩
    · rw [hran.2.1]
      exact hran.1
    · rw [hran.2.2, hran.2.1]
  · decide

/-- C2 witness: the first case-insensitive match of the sample search is
in range of the original text and slices it verbatim. -/
theorem C2_case_insensitive_offsets_witness :
    caseFileResult ∈
      (perform_search_enhanced caseCorpus "hello".toList ["d.txt"]
        false false false 50).1 ∧
    caseRecord ∈ caseFileResult.«matches» ∧
    (∃ doc, lookupDoc caseCorpus caseFileResult.filename = some doc ∧
      caseRecord.position + caseRecord.match_length ≤ doc.content.length ∧
      caseRecord.match_length = ("hello".toList).length ∧
      caseRecord.exact_match =
        (doc.content.drop caseRecord.position).take caseRecord.match_length) :=
  ⟨by decide, by decide,
   C2_case_insensitive_offsets.1 caseCorpus "hello".toList ["d.txt"] false false 50
     caseFileResult caseRecord (by decide) (by decide)⟩

/-- C3 counterexample: the claimed "if and only if" fails in the "if"
direction.  Searching `"---"` for `"--"` with whole-word matching reports
only position 0; position 1 also carries the query with non-word (or
absent) neighbours on both sides, yet it is not reported, because the
non-overlapping scan resumed past it. -/
theorem C3_whole_word_counterexample :
    ((searchDocument "--".toList "---".toList true true false 50).map
        MatchRecord.position = [0]) ∧
    ("---".toList.drop 1).take ("--".toList.length) = "--".toList ∧
    boundaryOk "---".toList 1 ("--".toList.length) = true ∧
    (1 : Nat) ∉ (searchDocument "--".toList "---".toList true true false 50).map
        MatchRecord.position := by
  refine ⟨by decide, by decide, by decide, by decide⟩

/-- C3 (amended): with `whole_word = true`, every reported match has a
non-word (or absent) character immediately before its start and after its
end; conversely, any occurrence of the query satisfying those boundary
conditions is reported unless it starts strictly inside an earlier
reported match, which the non-overlapping scan skipped; the search of
"cat category cat" for "cat" reports exactly the two standalone
occurrences. -/
theorem C3_whole_word_boundaries (Q T : List Char) (cs sc : Bool) (R : Nat)
    (hQ : Q ≠ []) :
    (∀ r ∈ searchDocument Q T cs true sc R,
      (decide (r.position = 0) || notWordAt T (r.position - 1)) = true ∧
      notWordAt T (r.position + Q.length) = true) ∧
    (∀ o : Nat, o + Q.length ≤ T.length →
      headMatch (charMatch cs) (if cs then Q else Q.map Char.toLower)
        ((if cs then T else T.map Char.toLower).drop o) = true →
      boundaryOk T o Q.length = true →
      o ∈ (searchDocument Q T cs true sc R).map MatchRecord.position ∨
        ∃ p ∈ (searchDocument Q T cs true sc R).map MatchRecord.position,
          p < o ∧ o < p + Q.length) ∧
    ((searchDocument "cat".toList "cat category cat".toList true true false 50).map
        MatchRecord.position = [0, 13]) := by
  have hql : (if cs then Q else Q.map Char.toLower).length = Q.length := by
    cases cs <;> simp
  have htl : (if cs then T else T.map Char.toLower).length = T.length := by
    cases cs <;> simp
  have hbdd : ∀ i : Nat,
      boundaryOk (if cs then T else T.map Char.toLower) i
        (if cs then Q else Q.map Char.toLower).length = boundaryOk T i Q.length := by
    intro i
    cases cs
    · simp only [if_neg Bool.false_ne_true]
      rw [boundaryOk_map_toLower, List.length_map]
    · rfl
  have hmax : max (if cs then Q else Q.map Char.toLower).length 1 = Q.length := by
    rw [hql]
    exact Nat.max_eq_left (List.length_pos.mpr hQ)
  refine ⟨?_, ?_, by decide⟩
  · intro r hr
    rcases searchDocument_mem hr with ⟨p, hp, rfl⟩
    have hmt := (scanFrom_mem_spec hp).1
    have hband : headMatch (charMatch cs) (if cs then Q else Q.map Char.toLower)
        ((if cs then T else T.map Char.toLower).drop p) = true ∧
        boundaryOk (if cs then T else T.map Char.toLower) p
          (if cs then Q else Q.map Char.toLower).length = true := by
      simpa [matchAt] using hmt
    have hb : boundaryOk T p Q.length = true := by
      rw [← hbdd p]
      exact hband.2
    rw [boundaryOk, Bool.and_eq_true] at hb
    exact ⟨by rw [buildRecord_position]; exact hb.1,
      by rw [buildRecord_position]; exact hb.2⟩
  · intro o ho hhead hbnd
    have hmt : matchAt cs true (if cs then Q else Q.map Char.toLower)
        (if cs then T else T.map Char.toLower) o = true := by
      rw [matchAt, hhead, Bool.true_and]
      rw [hbdd o, hbnd]
      rfl
    have hrange : o + (if cs then Q else Q.map Char.toLower).length ≤
        (if cs then T else T.map Char.toLower).length := by
      rw [hql, htl]
      exact ho
    rw [searchDocument_map_position]
    rcases scanFrom_complete hrange hmt with h | ⟨p, hp, h1, h2⟩
    · exact Or.inl h
    · refine Or.inr ⟨p, hp, h1, ?_⟩
      rw [hmax] at h2
      exact h2

/-- C3 witness for the amended theorem: the query "cat" is non-empty and
the whole-word search of "cat category cat" reports positions 0 and 13
only. -/
theorem C3_whole_word_boundaries_witness :
    ("cat".toList ≠ []) ∧
    (searchDocument "cat".toList "cat category cat".toList true true false 50).map
        MatchRecord.position = [0, 13] :=
  ⟨by decide,
   (C3_whole_word_boundaries "cat".toList "cat category cat".toList true false 50
     (by decide)).2.2⟩

/-- C4: when context is requested with radius `R`, every record's context
is the window `text[max(0,s-R) : min(L,e+R)]` with the exact match wrapped
in `**` markers on both sides, and the unmarked window never exceeds
`(e-s) + 2R` characters; without context the context field is exactly the
matched substring. -/
theorem C4_context_window :
    (∀ (documents : List (String × Document)) (Q : List Char) (tgt : List String)
        (cs ww : Bool) (R : Nat) (fr : FileResult) (r : MatchRecord),
      fr ∈ (perform_search_enhanced documents Q tgt cs ww true R).1 →
      r ∈ fr.«matches» →
      ∃ doc, lookupDoc documents fr.filename = some doc ∧
        r.context =
          ((doc.content.drop (r.position - R)).take
              (min doc.content.length (r.position + r.match_length + R) -
                (r.position - R))).take (r.position - (r.position - R)) ++
            marker ++ r.exact_match ++ marker ++
            ((doc.content.drop (r.position - R)).take
              (min doc.content.length (r.position + r.match_length + R) -
                (r.position - R))).drop
              ((r.position - (r.position - R)) + r.match_length) ∧
        ((doc.content.drop (r.position - R)).take
            (min doc.content.length (r.position + r.match_length + R) -
              (r.position - R))).length ≤ r.match_length + 2 * R) ∧
    (∀ (documents : List (String × Document)) (Q : List Char) (tgt : List String)
        (cs ww : Bool) (R : Nat) (fr : FileResult) (r : MatchRecord),
      fr ∈ (perform_search_enhanced documents Q tgt cs ww false R).1 →
      r ∈ fr.«matches» → r.context = r.exact_match) := by
  constructor
  · intro documents Q tgt cs ww R fr r hfr hr
    rcases perform_search_mem hfr with ⟨doc, hlk, hm, _, _⟩
    rw [hm] at hr
    rcases searchDocument_mem hr with ⟨p, hp, rfl⟩
    have hrange : p + (if cs then Q else Q.map Char.toLower).length ≤
        doc.content.length := by
      have := (scanFrom_mem_spec hp).2
      cases cs <;> simpa using this
    have hexlen : ((doc.content.drop p).take
        (if cs then Q else Q.map Char.toLower).length).length =
        (if cs then Q else Q.map Char.toLower).length := by
      simp only [List.length_take, List.length_drop]
      omega
    refine ⟨doc, hlk, ?_, ?_⟩
    · simp only [buildRecord_context_true, buildRecord_position,
        buildRecord_match_length, buildRecord_exact, hexlen]
      rw [window_middle doc.content _ R p hrange]
    · simp only [buildRecord_position, buildRecord_match_length, hexlen]
      exact window_length_le doc.content _ R p
  · intro documents Q tgt cs ww R fr r hfr hr
    rcases perform_search_mem hfr with ⟨doc, hlk, hm, _, _⟩
    rw [hm] at hr
    rcases searchDocument_mem hr with ⟨p, hp, rfl⟩
    rw [buildRecord_context_false, buildRecord_exact]

/-- C4 witness: the sample search with radius 3 produces the context
"ell**o w**orl" wrapping the exact match "o w", its unmarked window within
the length bound, and the same search without context shows the bare
match. -/
theorem C4_context_window_witness :
    sampleFileResult ∈
      (perform_search_enhanced sampleCorpus "o w".toList ["d.txt"]
        true false true 3).1 ∧
    sampleRecord ∈ sampleFileResult.«matches» ∧
    (∃ doc, lookupDoc sampleCorpus sampleFileResult.filename = some doc ∧
      sampleRecord.context =
        ((doc.content.drop (sampleRecord.position - 3)).take
            (min doc.content.length
              (sampleRecord.position + sampleRecord.match_length + 3) -
              (sampleRecord.position - 3))).take
            (sampleRecord.position - (sampleRecord.position - 3)) ++
          marker ++ sampleRecord.exact_match ++ marker ++
          ((doc.content.drop (sampleRecord.position - 3)).take
            (min doc.content.length
              (sampleRecord.position + sampleRecord.match_length + 3) -
              (sampleRecord.position - 3))).drop
            ((sampleRecord.position - (sampleRecord.position - 3)) +
              sampleRecord.match_length) ∧
      ((doc.content.drop (sampleRecord.position - 3)).take
          (min doc.content.length
            (sampleRecord.position + sampleRecord.match_length + 3) -
            (sampleRecord.position - 3))).length ≤
        sampleRecord.match_length + 2 * 3) ∧
    sampleRecordPlain.context = sampleRecordPlain.exact_match :=
  ⟨by decide, by decide,
   C4_context_window.1 sampleCorpus "o w".toList ["d.txt"] true false 3
     sampleFileResult sampleRecord (by decide) (by decide),
   C4_context_window.2 sampleCorpus "o w".toList ["d.txt"] true false 3
     sampleFileResultPlain sampleRecordPlain (by decide) (by decide)⟩

/-- C5: every record's line number is the newline count before the match
start plus one, its line text is the corresponding 1-based segment of the
text split on newlines, and the sample search in "a\nb\nmatch\n" reports
line 3 with line text "match". -/
theorem C5_line_numbers :
    (∀ (documents : List (String × Document)) (Q : List Char) (tgt : List String)
        (cs ww sc : Bool) (R : Nat) (fr : FileResult) (r : MatchRecord),
      fr ∈ (perform_search_enhanced documents Q tgt cs ww sc R).1 →
      r ∈ fr.«matches» →
      ∃ doc, lookupDoc documents fr.filename = some doc ∧
        r.line = (doc.content.take r.position).count '\n' + 1 ∧
        r.line_text = (splitNL doc.content).getD (r.line - 1) []) ∧
    ((perform_search_enhanced lineCorpus "match".toList ["d.txt"]
        true false false 50).1.map
      (fun fr => fr.«matches».map (fun r => (r.line, r.line_text)))) =
      [[(3, "match".toList)]] := by
  constructor
  · intro documents Q tgt cs ww sc R fr r hfr hr
    rcases perform_search_mem hfr with ⟨doc, hlk, hm, _, _⟩
    rw [hm] at hr
    rcases searchDocument_mem hr with ⟨p, hp, rfl⟩
    refine ⟨doc, hlk, ?_, ?_⟩
    · rw [buildRecord_line, buildRecord_position]
    · rw [buildRecord_line_text_eq, buildRecord_line, Nat.add_sub_cancel]
  · decide

/-- C5 witness: the record of the sample line search satisfies the line
formula concretely. -/
theorem C5_line_numbers_witness :
    lineFileResult ∈
      (perform_search_enhanced lineCorpus "match".toList ["d.txt"]
        true false false 50).1 ∧
    lineRecord ∈ lineFileResult.«matches» ∧
    (∃ doc, lookupDoc lineCorpus lineFileResult.filename = some doc ∧
      lineRecord.line = (doc.content.take lineRecord.position).count '\n' + 1 ∧
      lineRecord.line_text = (splitNL doc.content).getD (lineRecord.line - 1) []) :=
  ⟨by decide, by decide,
   C5_line_numbers.1 lineCorpus "match".toList ["d.txt"] true false false 50
     lineFileResult lineRecord (by decide) (by decide)⟩

end AppSearch
